import Mathlib

/-!
Verification of the statsd Go client (KalyanAkella/statsd).

The tag data structure and the client facade are translated from the
repository sources (`src/unnamed/part_000` and `src/statsd.go`).  The
transport (`conn`) implementation file is not part of the sources, so it is
modelled from the specification (§4.2) where needed; those definitions carry
a `Modelled from the spec:` doc comment.

Go maps are embedded as association lists with insert-overwrites semantics;
Go `nil` pointers and panics are embedded with `Option` (a `none` result of a
client operation marks a panic).
-/

set_option autoImplicit false

namespace Statsd

/-- Lookup in the association-list embedding of a Go `map[string]string`. -/
def kvsLookup : List (String × String) → String → Option String
  | [], _ => none
  | (k', v') :: rest, k => if k' = k then some v' else kvsLookup rest k

/-- Insertion (`m[k] = v`) in the association-list embedding of a Go map:
replaces the binding if the key is present, appends it otherwise. -/
def kvsInsert : List (String × String) → String → String → List (String × String)
  | [], k, v => [(k, v)]
  | (k', v') :: rest, k, v =>
    if k' = k then (k, v) :: rest else (k', v') :: kvsInsert rest k v

/-- The `Tags` struct: a map `kvs` together with the insertion-ordered key
slice `keys` (source: `type Tags struct { kvs map[string]string; keys []string }`). -/
structure Tags where
  kvs  : List (String × String)
  keys : List String
  deriving Repr, DecidableEq

/-- `emptyTags()` from the source. -/
def emptyTags : Tags := { kvs := [], keys := [] }

/-- Consecutive pairing of an even-length argument slice, as done by the loop
`k, v := tags[i<<1], tags[1+i<<1]` in `newTags`. -/
def toPairs : List String → List (String × String)
  | k :: v :: rest => (k, v) :: toPairs rest
  | _ => []

/-- `newTags(tags ...string)`: `none` embeds the panic on an odd number of
arguments; otherwise the keys slice records every key in order and the map
holds the pairs. -/
def newTags (tags : List String) : Option Tags :=
  if tags.length % 2 = 1 then none
  else if tags.length = 0 then some emptyTags
  else some
    { kvs := (toPairs tags).foldl (fun m p => kvsInsert m p.1 p.2) []
      keys := (toPairs tags).map Prod.fst }

/-- One iteration of the loop in `Tags.append`: a key of `that` is adopted
only when absent from the receiver, reading its value from `that`'s map
(`this.kvs[k] = that.kvs[k]`, where a missing map key reads as `""`). -/
def appendStep (thatKvs : List (String × String)) (acc : Tags) (k : String) : Tags :=
  match kvsLookup acc.kvs k with
  | some _ => acc
  | none =>
    { kvs := kvsInsert acc.kvs k ((kvsLookup thatKvs k).getD "")
      keys := acc.keys ++ [k] }

/-- `func (this *Tags) append(that *Tags)` from the source, as a function on
values: fold the loop body over `that.keys`. -/
def Tags.append (this that : Tags) : Tags :=
  that.keys.foldl (appendStep that.kvs) this

/-- `func (this *Tags) numTags() int`. -/
def Tags.numTags (this : Tags) : Nat := this.keys.length

/-- `func (this *Tags) clone() *Tags`: rebuilds the map and the key slice
from `keys`. -/
def Tags.clone (this : Tags) : Tags :=
  { kvs := this.keys.foldl (fun m k => kvsInsert m k ((kvsLookup this.kvs k).getD "")) []
    keys := this.keys }

/-- Go's `strings.TrimSuffix`, on the character data (all wire strings here
are ASCII, so character positions and byte positions agree). -/
def trimSuffix (s sfx : String) : String :=
  if sfx.data.isSuffixOf s.data then ⟨s.data.take (s.data.length - sfx.data.length)⟩ else s

/-- `type TagFormat uint8`; the constants below mirror the `iota + 1` block. -/
abbrev TagFormat := Nat

/-- `InfluxDB TagFormat = iota + 1`. -/
def InfluxDB : TagFormat := 1

/-- `Datadog` tag format constant. -/
def Datadog : TagFormat := 2

/-- `func (this *Tags) format(tf TagFormat) string` from the source: empty
on no tags; InfluxDB writes `,k=v` per key; Datadog starts from `"|#"`,
writes `k:v,` per key and trims the trailing comma; any other dialect
yields the empty string. -/
def Tags.format (this : Tags) (tf : TagFormat) : String :=
  if this.numTags = 0 then ""
  else if tf = InfluxDB then
    this.keys.foldl (fun buf k => buf ++ "," ++ k ++ "=" ++ (kvsLookup this.kvs k).getD "") ""
  else if tf = Datadog then
    trimSuffix
      (this.keys.foldl (fun buf k => buf ++ k ++ ":" ++ (kvsLookup this.kvs k).getD "" ++ ",") "|#")
      ","
  else ""

/-! ## Transport (`conn`)

The transport implementation file is not among the sources; the definitions
in this section are modelled from the specification (§3 and §4.2). -/

/-- Modelled from the spec: the transport state — the terminal `Closed` flag,
the pending outbound buffer of newline-terminated lines, and the configured
maximum packet size.  The `conn` source file is missing. -/
structure Conn where
  closed : Bool
  buf : List String
  maxPacketSize : Nat
  deriving Repr, DecidableEq

/-- A packet: the lines it carries, in order. -/
abbrev Packet := List String

/-- The bytes a line occupies in the buffer: the line plus its newline
separator. -/
def lineSize (l : String) : Nat := l.length + 1

/-- The size of the pending buffer in bytes. -/
def bufSize (b : List String) : Nat := (b.map lineSize).sum

/-- Modelled from the spec: `emit` steps 2–6 of §4.2 — in `Closed` a no-op;
if the line plus separator would overflow a non-empty buffer, flush it first
(write-then-clear) and start a fresh buffer with the new line; a line that
alone exceeds the maximum is written standalone without being buffered;
otherwise the line is appended.  Returns the new state and the packets
written. -/
def Conn.emitLine (cn : Conn) (line : String) : Conn × List Packet :=
  if cn.closed then (cn, [])
  else if bufSize cn.buf + lineSize line > cn.maxPacketSize ∧ cn.buf ≠ [] then
    if lineSize line > cn.maxPacketSize then
      ({ cn with buf := [] }, [cn.buf, [line]])
    else
      ({ cn with buf := [line] }, [cn.buf])
  else if lineSize line > cn.maxPacketSize then
    (cn, [[line]])
  else
    ({ cn with buf := cn.buf ++ [line] }, [])

/-- Modelled from the spec: `flush` of §4.2 — in `Closed` a no-op; writes
the buffer if non-empty (an empty buffer is a true no-op, zero writes), then
clears it. -/
def Conn.flushOp (cn : Conn) : Conn × List Packet :=
  if cn.closed then (cn, [])
  else if cn.buf = [] then (cn, [])
  else ({ cn with buf := [] }, [cn.buf])

/-! ## Configuration and options -/

/-- `clientConfig` (field `pfx` embeds the Go field `Prefix`); `tags` is a
`*Tags` pointer, with `none` embedding `nil`. -/
structure clientConfig where
  muted : Bool
  rate : Rat
  pfx : String
  tags : Option Tags
  deriving Repr, DecidableEq

/-- `connConfig` (flush period in nanoseconds, as Go's `time.Duration`). -/
structure connConfig where
  addr : String
  flushPeriod : Nat
  maxPacketSize : Nat
  network : String
  tagFormat : TagFormat
  deriving Repr, DecidableEq

/-- `config`. -/
structure config where
  conn : connConfig
  client : clientConfig
  deriving Repr, DecidableEq

/-- The options of the repository, as data; `pfx` embeds the `Prefix` option,
`commonTags` the closure returned by `CommonTags` (built only after its
even-arity check). -/
inductive Opt where
  | address (addr : String)
  | flushPeriod (p : Nat)
  | maxPacketSize (n : Nat)
  | network (s : String)
  | mute (b : Bool)
  | sampleRate (r : Rat)
  | pfx (p : String)
  | tagsFormat (tf : TagFormat)
  | commonTags (tags : List String)
  deriving Repr, DecidableEq

/-- `func CommonTags(tags ...string) Option`: panics (embedded as `none`)
on an odd number of arguments, before any closure is built. -/
def mkCommonTags (tags : List String) : Option Opt :=
  if tags.length % 2 ≠ 0 then none else some (Opt.commonTags tags)

/-- Application of one option to a config, each case translated from the
corresponding closure in the source.  `Prefix` appends
`strings.TrimSuffix(p, ".") + "."` to the accumulated prefix.  `CommonTags`
appends to the `Tags` value the config points at; on a `nil` pointer the Go
code would dereference `nil` and panic, embedded as `none`. -/
def applyOpt (c : config) : Opt → Option config
  | .address a => some { c with conn := { c.conn with addr := a } }
  | .flushPeriod p => some { c with conn := { c.conn with flushPeriod := p } }
  | .maxPacketSize n => some { c with conn := { c.conn with maxPacketSize := n } }
  | .network s => some { c with conn := { c.conn with network := s } }
  | .mute b => some { c with client := { c.client with muted := b } }
  | .sampleRate r => some { c with client := { c.client with rate := r } }
  | .pfx p => some { c with client := { c.client with pfx := c.client.pfx ++ trimSuffix p "." ++ "." } }
  | .tagsFormat tf => some { c with conn := { c.conn with tagFormat := tf } }
  | .commonTags tags =>
    if tags.length = 0 then some c
    else match c.client.tags with
      | none => none
      | some t => some { c with client := { c.client with tags := some (t.append ((newTags tags).getD emptyTags)) } }

/-- The `for _, o := range opts` loop of `New` and `Clone`. -/
def applyOpts : config → List Opt → Option config
  | c, [] => some c
  | c, o :: os =>
    match applyOpt c o with
    | none => none
    | some c' => applyOpts c' os

/-! ## Client facade -/

/-- The `Client` struct of `statsd.go` without its `conn` pointer (the shared
transport state is threaded explicitly); `tags = none` embeds the `nil`
pointer left by the failing constructor path. -/
structure Client where
  muted : Bool
  rate : Rat
  pfx : String
  tags : Option Tags
  tagFormat : TagFormat
  deriving Repr, DecidableEq

/-- The default configuration built at the top of `New`. -/
def defaultConfig : config :=
  { conn :=
      { addr := ":8125"
        flushPeriod := 100000000
        maxPacketSize := 1440
        network := "udp"
        tagFormat := 0 }
    client :=
      { muted := false
        rate := 1
        pfx := ""
        tags := some emptyTags } }

/-- `func New(opts ...Option) (*Client, error)`.  `connOk` stands for the
missing `newConn` succeeding (spec: the endpoint can be opened).  The result
is `(client, transport state, error returned)`; on failure the client keeps
only the muted flag, forced to `true`, the other fields staying at their Go
zero values (`rate` 0, empty prefix, `nil` tags), and the error is returned
alongside the client. -/
def New (opts : List Opt) (connOk : Bool) : Option (Client × Option Conn × Bool) :=
  match applyOpts defaultConfig opts with
  | none => none
  | some conf =>
    if connOk then
      some
        ({ muted := conf.client.muted
           rate := conf.client.rate
           pfx := conf.client.pfx
           tags := conf.client.tags
           tagFormat := conf.conn.tagFormat },
         some { closed := false, buf := [], maxPacketSize := conf.conn.maxPacketSize },
         false)
    else
      some
        ({ muted := true, rate := 0, pfx := "", tags := none, tagFormat := 0 },
         none,
         true)

/-- The zero-valued `connConfig` of the literal `&config{Client: …}` built
by `Clone`. -/
def zeroConnConfig : connConfig :=
  { addr := "", flushPeriod := 0, maxPacketSize := 0, network := "", tagFormat := 0 }

/-- `func (c *Client) Clone(opts ...Option) *Client`.  `connTF` is the
`c.conn.tagFormat` read on the first line (`none` embeds a `nil` conn, whose
dereference panics).  The config's `Tags` field aliases the parent's tags,
so a `commonTags` option mutates the parent's tag set; the second component
of the result is the parent's tag value after the options ran.  A `nil`
tags pointer makes `clone()` panic, embedded as `none`. -/
def Client.Clone (c : Client) (connTF : Option TagFormat) (opts : List Opt) :
    Option (Client × Tags) :=
  match connTF with
  | none => none
  | some tf =>
    match applyOpts { conn := zeroConnConfig,
                      client := { muted := false, rate := c.rate, pfx := c.pfx, tags := c.tags } }
        opts with
    | none => none
    | some conf =>
      match conf.client.tags with
      | none => none
      | some t =>
        some
          ({ muted := c.muted || conf.client.muted
             rate := conf.client.rate
             pfx := conf.client.pfx
             tags := some t.clone
             tagFormat := tf },
           t)

/-- `func (c *Client) skip() bool`; `r` is the value drawn by `randFloat()`. -/
def Client.skip (c : Client) (r : Rat) : Bool :=
  c.muted || (c.rate != 1 && r > c.rate)

/-- Modelled from the spec: the wire line of §4.2 step 1 / §6,
`{prefix}{bucket}:{value}|{type}` with `|@{rate}` only when the rate is
below 1, then the tag suffix (the transport treats the line as opaque). -/
def wireLine (pfx bucket value typ : String) (rate : Rat) (tagSfx : String) : String :=
  pfx ++ bucket ++ ":" ++ value ++ "|" ++ typ ++
    (if rate < 1 then "|@" ++ toString rate else "") ++ tagSfx

/-- Modelled from the spec: `conn.metric` formats the line and hands it to
the buffering step. -/
def Conn.metric (cn : Conn) (pfx bucket value typ : String) (rate : Rat) (tagSfx : String) :
    Conn × List Packet :=
  cn.emitLine (wireLine pfx bucket value typ rate tagSfx)

/-- Modelled from the spec: `conn.gauge` emits a `g`-typed line at rate 1. -/
def Conn.gauge (cn : Conn) (pfx bucket value : String) (tagSfx : String) : Conn × List Packet :=
  cn.emitLine (wireLine pfx bucket value "g" 1 tagSfx)

/-- Modelled from the spec: `conn.unique` emits an `s`-typed line at rate 1. -/
def Conn.unique (cn : Conn) (pfx bucket value : String) (tagSfx : String) : Conn × List Packet :=
  cn.emitLine (wireLine pfx bucket value "s" 1 tagSfx)

/-- `func (c *Client) Count`: skip check first, then `newTags(metricTags…)`
(panic on odd arity), then the dereference of `c.tags` in `mTags.append`
(panic when `nil`), then the transport call.  `none` embeds a panic; the
value argument is embedded as its printed form. -/
def Client.Count (c : Client) (cn : Conn) (r : Rat) (bucket : String) (n : String)
    (metricTags : List String) : Option (Conn × List Packet) :=
  if c.skip r then some (cn, [])
  else
    match newTags metricTags, c.tags with
    | some mTags, some ctags =>
      some (cn.metric c.pfx bucket n "c" c.rate ((mTags.append ctags).format c.tagFormat))
    | _, _ => none

/-- `func (c *Client) Gauge`. -/
def Client.Gauge (c : Client) (cn : Conn) (r : Rat) (bucket : String) (value : String)
    (metricTags : List String) : Option (Conn × List Packet) :=
  if c.skip r then some (cn, [])
  else
    match newTags metricTags, c.tags with
    | some mTags, some ctags =>
      some (cn.gauge c.pfx bucket value ((mTags.append ctags).format c.tagFormat))
    | _, _ => none

/-- `func (c *Client) Timing`: no metric-level tags; formats `c.tags`
directly (panic when `nil`). -/
def Client.Timing (c : Client) (cn : Conn) (r : Rat) (bucket : String) (value : String) :
    Option (Conn × List Packet) :=
  if c.skip r then some (cn, [])
  else
    match c.tags with
    | some ctags => some (cn.metric c.pfx bucket value "ms" c.rate (ctags.format c.tagFormat))
    | none => none

/-- `func (c *Client) Histogram`. -/
def Client.Histogram (c : Client) (cn : Conn) (r : Rat) (bucket : String) (value : String)
    (metricTags : List String) : Option (Conn × List Packet) :=
  if c.skip r then some (cn, [])
  else
    match newTags metricTags, c.tags with
    | some mTags, some ctags =>
      some (cn.metric c.pfx bucket value "h" c.rate ((mTags.append ctags).format c.tagFormat))
    | _, _ => none

/-- `func (c *Client) Unique`. -/
def Client.Unique (c : Client) (cn : Conn) (r : Rat) (bucket : String) (value : String) :
    Option (Conn × List Packet) :=
  if c.skip r then some (cn, [])
  else
    match c.tags with
    | some ctags => some (cn.unique c.pfx bucket value (ctags.format c.tagFormat))
    | none => none

/-- `func (c *Client) Increment`: `Count(bucket, 1, metricTags...)`. -/
def Client.Increment (c : Client) (cn : Conn) (r : Rat) (bucket : String)
    (metricTags : List String) : Option (Conn × List Packet) :=
  c.Count cn r bucket "1" metricTags

/-- `func (c *Client) Flush`: returns immediately when muted, otherwise
flushes the shared transport. -/
def Client.Flush (c : Client) (cn : Conn) : Conn × List Packet :=
  if c.muted then (cn, []) else cn.flushOp

/-- `func (c *Client) Close`: returns immediately when muted, otherwise
flushes, closes the socket (errors go to the handler, not the caller) and
marks the transport closed. -/
def Client.Close (c : Client) (cn : Conn) : Conn × List Packet :=
  if c.muted then (cn, [])
  else
    let fl := cn.flushOp
    ({ fl.1 with closed := true }, fl.2)

/-! ## Operation sequences -/

/-- One public call on a client; `r` is the `randFloat()` draw the call
would observe. -/
inductive OpCall where
  | count (r : Rat) (bucket : String) (n : String) (mtags : List String)
  | increment (r : Rat) (bucket : String) (mtags : List String)
  | gauge (r : Rat) (bucket : String) (v : String) (mtags : List String)
  | timing (r : Rat) (bucket : String) (v : String)
  | histogram (r : Rat) (bucket : String) (v : String) (mtags : List String)
  | uniq (r : Rat) (bucket : String) (v : String)
  | flush
  | close
  deriving Repr, DecidableEq

/-- Dispatch of one call. -/
def runOp (c : Client) (cn : Conn) : OpCall → Option (Conn × List Packet)
  | .count r bucket n mtags => c.Count cn r bucket n mtags
  | .increment r bucket mtags => c.Increment cn r bucket mtags
  | .gauge r bucket v mtags => c.Gauge cn r bucket v mtags
  | .timing r bucket v => c.Timing cn r bucket v
  | .histogram r bucket v mtags => c.Histogram cn r bucket v mtags
  | .uniq r bucket v => c.Unique cn r bucket v
  | .flush => some (c.Flush cn)
  | .close => some (c.Close cn)

/-- A sequence of calls, each by some client sharing the transport, threading
the transport state and collecting every packet written; `none` embeds a
panic somewhere in the sequence. -/
def runOps (cn : Conn) : List (Client × OpCall) → Option (Conn × List Packet)
  | [] => some (cn, [])
  | (c, op) :: rest =>
    match runOp c cn op with
    | none => none
    | some (cn', ps) =>
      match runOps cn' rest with
      | none => none
      | some (cn'', ps') => some (cn'', ps ++ ps')

/-! ## Spec-side renderings (for the tag-format comparison) -/

/-- The value a tag set associates to a key (a missing map key reads as `""`,
as a Go map read does). -/
def valOf (t : Tags) (k : String) : String := (kvsLookup t.kvs k).getD ""

/-- The InfluxDB suffix as the spec words it: `,k1=v1,k2=v2,...` over the
keys in insertion order (empty when there are no tags). -/
def specInfluxSfx (t : Tags) : String :=
  String.join (t.keys.map fun k => "," ++ k ++ "=" ++ valOf t k)

/-- The Datadog suffix as the spec words it: `|#k1:v1,k2:v2,...` with no
trailing separator. -/
def specDatadogSfx (t : Tags) : String :=
  "|#" ++ String.intercalate "," (t.keys.map fun k => k ++ ":" ++ valOf t k)

/-- Whether a string ends in the given suffix (on character data; the wire
strings are ASCII). -/
def endsWith (s t : String) : Bool := t.data.isSuffixOf s.data

/-- The effect of one option on the `Muted` configuration field: a `mute`
option overwrites it, every other option leaves it. -/
def muteStep (b : Bool) : Opt → Bool
  | .mute m => m
  | _ => b

/-- The `Muted` value carried by an option list: the last `mute` option wins,
`false` when there is none. -/
def mutedOfOpts (opts : List Opt) : Bool :=
  opts.foldl muteStep false

/-- Whether an option is not a `commonTags` option. -/
def notCommon : Opt → Bool
  | .commonTags _ => false
  | _ => true

/-- Whether an option list contains no `commonTags` option. -/
def noCommon (opts : List Opt) : Bool :=
  opts.all notCommon

/-- The metric-tag argument list of a call has even length (the documented
arity precondition of the variadic tag parameters). -/
def opTagsEven : OpCall → Bool
  | .count _ _ _ mtags => mtags.length % 2 = 0
  | .increment _ _ mtags => mtags.length % 2 = 0
  | .gauge _ _ _ mtags => mtags.length % 2 = 0
  | .histogram _ _ _ mtags => mtags.length % 2 = 0
  | _ => true

/-- A call is well formed when its client is muted or has a live tag set and
the call respects the tag-arity precondition. -/
def wfPair (p : Client × OpCall) : Bool :=
  p.1.muted || (p.1.tags.isSome && opTagsEven p.2)

/-! ## Helper lemmas -/

theorem kvsLookup_insert (m : List (String × String)) (k v q : String) :
    kvsLookup (kvsInsert m k v) q = if k = q then some v else kvsLookup m q := by
  induction m with
  | nil => simp [kvsInsert, kvsLookup]
  | cons p rest ih =>
    obtain ⟨a, b⟩ := p
    by_cases hak : a = k
    · subst hak
      by_cases haq : a = q <;> simp [kvsInsert, kvsLookup, haq]
    · by_cases haq : a = q
      · subst haq
        have : ¬ k = a := fun h => hak h.symm
        simp [kvsInsert, kvsLookup, hak, this]
      · simp [kvsInsert, kvsLookup, hak, haq, ih]

theorem appendStep_of_present {acc : Tags} {k : String} (okvs : List (String × String))
    (h : (kvsLookup acc.kvs k).isSome) : appendStep okvs acc k = acc := by
  unfold appendStep
  cases hx : kvsLookup acc.kvs k with
  | none => rw [hx] at h; simp at h
  | some v => simp

theorem appendStep_of_absent {acc : Tags} {k : String} (okvs : List (String × String))
    (h : kvsLookup acc.kvs k = none) :
    appendStep okvs acc k =
      { kvs := kvsInsert acc.kvs k ((kvsLookup okvs k).getD ""), keys := acc.keys ++ [k] } := by
  unfold appendStep
  rw [h]

theorem appendLoop_keys (okvs : List (String × String)) (ks : List String) (hnd : ks.Nodup) :
    ∀ acc : Tags,
      (ks.foldl (appendStep okvs) acc).keys
        = acc.keys ++ ks.filter (fun k => (kvsLookup acc.kvs k).isNone) := by
  induction ks with
  | nil => intro acc; simp
  | cons k ks ih =>
    intro acc
    obtain ⟨hk, hnd'⟩ := List.nodup_cons.mp hnd
    cases hx : kvsLookup acc.kvs k with
    | some v =>
      rw [List.foldl_cons, appendStep_of_present okvs (by rw [hx]; simp), ih hnd' acc]
      simp [hx]
    | none =>
      rw [List.foldl_cons, appendStep_of_absent okvs hx]
      rw [ih hnd']
      have hfilter :
          ks.filter (fun k' => (kvsLookup (kvsInsert acc.kvs k ((kvsLookup okvs k).getD "")) k').isNone)
            = ks.filter (fun k' => (kvsLookup acc.kvs k').isNone) := by
        apply List.filter_congr
        intro x hx'
        have hne : ¬ k = x := fun h => hk (h ▸ hx')
        simp [kvsLookup_insert, hne]
      simp only [hfilter]
      simp [hx, List.filter_cons]

theorem appendLoop_lookup_present (okvs : List (String × String)) (ks : List String) :
    ∀ (acc : Tags) (q : String), (kvsLookup acc.kvs q).isSome →
      kvsLookup ((ks.foldl (appendStep okvs) acc).kvs) q = kvsLookup acc.kvs q := by
  induction ks with
  | nil => intro acc q _; simp
  | cons k ks ih =>
    intro acc q hq
    cases hx : kvsLookup acc.kvs k with
    | some v =>
      rw [List.foldl_cons, appendStep_of_present okvs (by rw [hx]; simp), ih acc q hq]
    | none =>
      rw [List.foldl_cons, appendStep_of_absent okvs hx]
      have hne : ¬ k = q := by
        intro h; subst h; rw [hx] at hq; simp at hq
      have hlook :
          kvsLookup (kvsInsert acc.kvs k ((kvsLookup okvs k).getD "")) q = kvsLookup acc.kvs q := by
        simp [kvsLookup_insert, hne]
      rw [ih _ q (by simp [hlook, hq]), hlook]

theorem appendLoop_lookup_new (okvs : List (String × String)) (ks : List String) :
    ∀ (acc : Tags) (q : String), kvsLookup acc.kvs q = none → q ∈ ks →
      kvsLookup ((ks.foldl (appendStep okvs) acc).kvs) q = some ((kvsLookup okvs q).getD "") := by
  induction ks with
  | nil => intro acc q _ hmem; simp at hmem
  | cons k ks ih =>
    intro acc q hq hmem
    by_cases hkq : k = q
    · subst hkq
      rw [List.foldl_cons, appendStep_of_absent okvs hq]
      have hlook :
          kvsLookup (kvsInsert acc.kvs k ((kvsLookup okvs k).getD "")) k
            = some ((kvsLookup okvs k).getD "") := by
        simp [kvsLookup_insert]
      rw [appendLoop_lookup_present okvs ks _ k (by simp [hlook]), hlook]
    · have hmem' : q ∈ ks := by
        cases hmem with
        | head => exact absurd rfl hkq
        | tail _ h => exact h
      cases hx : kvsLookup acc.kvs k with
      | some v =>
        rw [List.foldl_cons, appendStep_of_present okvs (by rw [hx]; simp)]
        exact ih acc q hq hmem'
      | none =>
        rw [List.foldl_cons, appendStep_of_absent okvs hx]
        exact ih _ q (by simp [kvsLookup_insert, hkq, hq]) hmem'

/-! ## Claims -/

/-- C8: constructing a tag set from an odd number of string arguments fails
fast with a panic — both in `newTags` and in the `CommonTags` option
constructor — and an even-length argument list never fails. -/
theorem newTags_commonTags_odd_panic (tags : List String) :
    (newTags tags = none ↔ tags.length % 2 = 1) ∧
    (mkCommonTags tags = none ↔ tags.length % 2 = 1) := by
  constructor
  · unfold newTags
    by_cases h : tags.length % 2 = 1 <;> simp [h]
    split <;> simp
  · unfold mkCommonTags
    by_cases h : tags.length % 2 = 1
    · have : tags.length % 2 ≠ 0 := by omega
      simp [h, this]
    · have : tags.length % 2 = 0 := by omega
      simp [h, this]

/-- Witness for C8 at the one-element list. -/
theorem newTags_commonTags_odd_panic_witness :
    newTags ["a"] = none ∧ mkCommonTags ["a"] = none :=
  ⟨(newTags_commonTags_odd_panic ["a"]).1.mpr (by decide),
   (newTags_commonTags_odd_panic ["a"]).2.mpr (by decide)⟩

/-- C2: merging `o` into `r` appends exactly the keys of `o` absent from `r`,
in `o`'s relative order; keys already present keep `r`'s value (first writer
wins); freshly appended keys take `o`'s value. -/
theorem tags_append_spec (r o : Tags) (hnd : o.keys.Nodup) :
    (r.append o).keys = r.keys ++ o.keys.filter (fun k => (kvsLookup r.kvs k).isNone)
    ∧ (∀ k, (kvsLookup r.kvs k).isSome → kvsLookup (r.append o).kvs k = kvsLookup r.kvs k)
    ∧ (∀ k, kvsLookup r.kvs k = none → k ∈ o.keys →
        kvsLookup (r.append o).kvs k = some ((kvsLookup o.kvs k).getD "")) :=
  ⟨appendLoop_keys o.kvs o.keys hnd r,
   fun k hk => appendLoop_lookup_present o.kvs o.keys r k hk,
   fun k hk hm => appendLoop_lookup_new o.kvs o.keys r k hk hm⟩

/-- Witness for C2 on the spec's example `{a:1}.merge({a:2, b:3})`:
the result has key order `[a, b]`, keeps `a ↦ 1` and adopts `b ↦ 3`. -/
theorem tags_append_spec_witness :
    (Tags.append ⟨[("a", "1")], ["a"]⟩ ⟨[("a", "2"), ("b", "3")], ["a", "b"]⟩).keys
        = ["a"] ++ (["a", "b"].filter fun k => (kvsLookup [("a", "1")] k).isNone)
    ∧ kvsLookup (Tags.append ⟨[("a", "1")], ["a"]⟩ ⟨[("a", "2"), ("b", "3")], ["a", "b"]⟩).kvs "a"
        = kvsLookup [("a", "1")] "a"
    ∧ kvsLookup (Tags.append ⟨[("a", "1")], ["a"]⟩ ⟨[("a", "2"), ("b", "3")], ["a", "b"]⟩).kvs "b"
        = some ((kvsLookup [("a", "2"), ("b", "3")] "b").getD "") := by
  have h := tags_append_spec ⟨[("a", "1")], ["a"]⟩ ⟨[("a", "2"), ("b", "3")], ["a", "b"]⟩ (by decide)
  exact ⟨h.1, h.2.1 "a" (by decide), h.2.2 "b" (by decide) (by decide)⟩

theorem join_nil : String.join [] = "" := rfl

theorem join_cons (s : String) (l : List String) :
    String.join (s :: l) = s ++ String.join l := by
  simp only [String.join_eq]
  cases s
  rfl

theorem intercalate_go_append (a b s : String) (l : List String) :
    String.intercalate.go (a ++ b) s l = a ++ String.intercalate.go b s l := by
  induction l generalizing b with
  | nil => simp [String.intercalate.go]
  | cons c cs ih =>
    simp only [String.intercalate.go]
    rw [String.append_assoc a b s, String.append_assoc a (b ++ s) c, ih]

theorem intercalate_single (s x : String) : String.intercalate s [x] = x := by
  simp [String.intercalate, String.intercalate.go]

theorem intercalate_cons_cons (s x y : String) (l : List String) :
    String.intercalate s (x :: y :: l) = x ++ s ++ String.intercalate s (y :: l) := by
  simp only [String.intercalate, String.intercalate.go]
  rw [intercalate_go_append]

theorem foldl_accum_append (g : String → String → String) (f : String → String)
    (hg : ∀ b k, g b k = b ++ f k) (l : List String) :
    ∀ init : String, l.foldl g init = init ++ String.join (l.map f) := by
  induction l with
  | nil => intro init; rw [List.foldl_nil, List.map_nil, join_nil, String.append_empty]
  | cons k l ih =>
    intro init
    rw [List.foldl_cons, hg, ih, List.map_cons, join_cons, String.append_assoc]

theorem join_map_comma (l : List String) (hl : l ≠ []) :
    String.join (l.map (fun s => s ++ ",")) = String.intercalate "," l ++ "," := by
  induction l with
  | nil => exact absurd rfl hl
  | cons x l ih =>
    cases l with
    | nil =>
      rw [List.map_cons, List.map_nil, join_cons, join_nil, String.append_empty,
        intercalate_single]
    | cons y l =>
      rw [List.map_cons, join_cons, ih (by simp), intercalate_cons_cons]
      simp [String.append_assoc]

theorem trimSuffix_append_comma (s : String) : trimSuffix (s ++ ",") "," = s := by
  unfold trimSuffix
  have hdata : (s ++ ",").data = s.data ++ [','] := String.data_append s ","
  have hsfx : (",".data).isSuffixOf ((s ++ ",").data) = true := by
    rw [hdata]
    exact List.isSuffixOf_iff_suffix.mpr ⟨s.data, rfl⟩
  rw [hsfx]
  simp only [if_true, hdata]
  have : (s.data ++ [',']).length - (",".data).length = s.data.length := by
    simp
  rw [this]
  have htake : (s.data ++ [',']).take s.data.length = s.data := List.take_left s.data [',']
  rw [htake]

/-- C3: tag formatting — InfluxDB yields `,k1=v1,k2=v2,...` over the keys in
insertion order, Datadog yields `|#k1:v1,k2:v2,...` with no trailing
separator, both are empty on the empty tag set, and every other dialect
value yields the empty string. -/
theorem tags_format_spec (t : Tags) :
    (t.keys = [] → ∀ tf, t.format tf = "")
    ∧ t.format InfluxDB = specInfluxSfx t
    ∧ (t.keys ≠ [] → t.format Datadog = specDatadogSfx t)
    ∧ (∀ tf, tf ≠ InfluxDB → tf ≠ Datadog → t.format tf = "") := by
  refine ⟨?_, ?_, ?_, ?_⟩
  · intro hk tf
    simp [Tags.format, Tags.numTags, hk, join_nil]
  · by_cases hk : t.keys = []
    · simp [Tags.format, Tags.numTags, hk, specInfluxSfx, join_nil]
    · have hn : ¬ t.numTags = 0 := by
        simp [Tags.numTags, hk]
      simp only [Tags.format, hn, if_false, InfluxDB, if_true]
      rw [foldl_accum_append _ (fun k => "," ++ k ++ "=" ++ valOf t k)
        (fun b k => by simp [valOf, String.append_assoc]) t.keys ""]
      rw [String.empty_append]
      rfl
  · intro hk
    have hn : ¬ t.numTags = 0 := by
      simp [Tags.numTags, hk]
    have h12 : (2 : Nat) ≠ 1 := by decide
    simp only [Tags.format, hn, if_false, Datadog, InfluxDB, h12, if_true]
    rw [foldl_accum_append _ (fun k => (k ++ ":" ++ valOf t k) ++ ",")
      (fun b k => by simp [valOf, String.append_assoc]) t.keys "|#"]
    have hmap : t.keys.map (fun k => (k ++ ":" ++ valOf t k) ++ ",")
        = (t.keys.map fun k => k ++ ":" ++ valOf t k).map (fun s => s ++ ",") := by
      simp [List.map_map, Function.comp]
    rw [hmap, join_map_comma _ (by simpa using hk), ← String.append_assoc,
      trimSuffix_append_comma]
    rfl
  · intro tf h1 h2
    simp [Tags.format, h1, h2]

/-- Witness for C3 on the spec's example `{host:x, env:y}`. -/
theorem tags_format_spec_witness :
    Tags.format ⟨[("host", "x"), ("env", "y")], ["host", "env"]⟩ InfluxDB = ",host=x,env=y"
    ∧ Tags.format ⟨[("host", "x"), ("env", "y")], ["host", "env"]⟩ Datadog = "|#host:x,env:y"
    ∧ Tags.format ⟨[("host", "x"), ("env", "y")], ["host", "env"]⟩ 0 = "" := by
  have h := tags_format_spec ⟨[("host", "x"), ("env", "y")], ["host", "env"]⟩
  exact ⟨h.2.1.trans (by decide), (h.2.2.1 (by decide)).trans (by decide),
    h.2.2.2 0 (by decide) (by decide)⟩

/-- C1: an emit that would push a non-empty buffer past the maximum packet
size first flushes the pending contents (write-then-clear) and then starts a
fresh buffer with the new line, so the buffer size stays bounded by the
maximum; the sole exception is a line that alone exceeds the maximum, which
is written standalone without being buffered. -/
theorem emit_buffer_invariant (cn : Conn) (line : String) (hopen : cn.closed = false)
    (hinv : bufSize cn.buf ≤ cn.maxPacketSize) :
    bufSize (cn.emitLine line).1.buf ≤ cn.maxPacketSize
    ∧ (bufSize cn.buf + lineSize line > cn.maxPacketSize → cn.buf ≠ [] →
        lineSize line ≤ cn.maxPacketSize →
        (cn.emitLine line).1.buf = [line] ∧ (cn.emitLine line).2 = [cn.buf])
    ∧ (lineSize line > cn.maxPacketSize →
        (cn.emitLine line).1.buf = []
        ∧ (cn.emitLine line).2 = (if cn.buf = [] then [[line]] else [cn.buf, [line]])) := by
  simp only [Conn.emitLine, hopen, Bool.false_eq_true, if_false]
  by_cases h1 : bufSize cn.buf + lineSize line > cn.maxPacketSize ∧ cn.buf ≠ []
  · rw [if_pos h1]
    by_cases h2 : lineSize line > cn.maxPacketSize
    · rw [if_pos h2, if_neg h1.2]
      exact ⟨by simp [bufSize], fun _ _ hle => by omega, fun _ => ⟨rfl, rfl⟩⟩
    · rw [if_neg h2]
      refine ⟨?_, fun _ _ _ => ⟨rfl, rfl⟩, fun hgt => absurd hgt h2⟩
      simp only [bufSize, List.map_cons, List.map_nil, List.sum_cons, List.sum_nil]
      omega
  · rw [if_neg h1]
    by_cases h2 : lineSize line > cn.maxPacketSize
    · have hemp : cn.buf = [] := by
        by_contra hne
        exact h1 ⟨by omega, hne⟩
      rw [if_pos h2, if_pos hemp]
      exact ⟨hinv, fun _ hne _ => absurd hemp hne, fun _ => ⟨hemp, rfl⟩⟩
    · rw [if_neg h2]
      refine ⟨?_, fun hgt hne _ => absurd (And.intro hgt hne) h1, fun hgt => absurd hgt h2⟩
      simp only [bufSize, List.map_append, List.sum_append, List.map_cons, List.map_nil,
        List.sum_cons, List.sum_nil]
      by_cases hemp : cn.buf = []
      · simp only [hemp, List.map_nil, List.sum_nil]
        omega
      · have hns : ¬ bufSize cn.buf + lineSize line > cn.maxPacketSize := fun hc => h1 ⟨hc, hemp⟩
        simp only [bufSize] at hns
        omega

/-- Witness for C1: max 8, pending buffer one 4-character line, emitting a
second 4-character line flushes the first as its own packet and restarts the
buffer with the new line. -/
theorem emit_buffer_invariant_witness :
    bufSize (Conn.emitLine ⟨false, ["aaaa"], 8⟩ "bbbb").1.buf ≤ 8
    ∧ (Conn.emitLine ⟨false, ["aaaa"], 8⟩ "bbbb").1.buf = ["bbbb"]
    ∧ (Conn.emitLine ⟨false, ["aaaa"], 8⟩ "bbbb").2 = [["aaaa"]] := by
  have h := emit_buffer_invariant ⟨false, ["aaaa"], 8⟩ "bbbb" rfl (by decide)
  exact ⟨h.1, (h.2.1 (by decide) (by decide) (by decide)).1,
    (h.2.1 (by decide) (by decide) (by decide)).2⟩

theorem skip_of_muted {c : Client} (h : c.muted = true) (r : Rat) : c.skip r = true := by
  simp [Client.skip, h]

theorem runOp_muted {c : Client} (h : c.muted = true) (cn : Conn) (op : OpCall) :
    runOp c cn op = some (cn, []) := by
  cases op <;>
    simp [runOp, Client.Count, Client.Increment, Client.Gauge, Client.Timing, Client.Histogram,
      Client.Unique, Client.Flush, Client.Close, skip_of_muted h, h]

theorem runOps_muted {c : Client} (h : c.muted = true) (cn : Conn) (ops : List OpCall) :
    runOps cn (ops.map fun op => (c, op)) = some (cn, []) := by
  induction ops generalizing cn with
  | nil => rfl
  | cons op ops ih =>
    simp only [List.map_cons, runOps, runOp_muted h, ih, List.nil_append]

theorem newTags_isSome_of_even {l : List String} (h : l.length % 2 = 0) :
    (newTags l).isSome = true := by
  unfold newTags
  have h1 : ¬ l.length % 2 = 1 := by omega
  rw [if_neg h1]
  split <;> simp

theorem emitLine_closed {cn : Conn} (h : cn.closed = true) (line : String) :
    cn.emitLine line = (cn, []) := by
  simp [Conn.emitLine, h]

theorem flushOp_closed {cn : Conn} (h : cn.closed = true) : cn.flushOp = (cn, []) := by
  simp [Conn.flushOp, h]

theorem muted_of_skip_false {c : Client} {r : Rat} (h : c.skip r = false) : c.muted = false := by
  by_contra hm
  have : c.muted = true := by
    cases hx : c.muted
    · exact absurd hx hm
    · rfl
  rw [skip_of_muted this r] at h
  cases h

theorem runOp_closed {c : Client} {cn : Conn} (h : cn.closed = true) (op : OpCall)
    (hwf : wfPair (c, op) = true) : runOp c cn op = some (cn, []) := by
  have hconn : ∀ cn' : Conn, cn'.closed = true → ({ cn' with closed := true } : Conn) = cn' := by
    intro cn' hc
    cases cn'
    simp_all
  by_cases hm : c.muted = true
  · exact runOp_muted hm cn op
  · have hwf' : c.tags.isSome = true ∧ opTagsEven op = true := by
      unfold wfPair at hwf
      cases hx : c.muted
      · rw [hx] at hwf
        simp at hwf
        exact ⟨hwf.1, hwf.2⟩
      · exact absurd hx hm
    obtain ⟨htags, heven⟩ := hwf'
    obtain ⟨ctags, hctags⟩ := Option.isSome_iff_exists.mp htags
    cases op with
    | count r bucket n mtags =>
      simp only [runOp, Client.Count]
      by_cases hs : c.skip r = true
      · rw [if_pos hs]
      · rw [if_neg hs]
        have heven' : mtags.length % 2 = 0 := by
          simpa [opTagsEven] using heven
        obtain ⟨mt, hmt⟩ := Option.isSome_iff_exists.mp (newTags_isSome_of_even heven')
        rw [hmt, hctags]
        simp [Conn.metric, emitLine_closed h]
    | increment r bucket mtags =>
      simp only [runOp, Client.Increment, Client.Count]
      by_cases hs : c.skip r = true
      · rw [if_pos hs]
      · rw [if_neg hs]
        have heven' : mtags.length % 2 = 0 := by
          simpa [opTagsEven] using heven
        obtain ⟨mt, hmt⟩ := Option.isSome_iff_exists.mp (newTags_isSome_of_even heven')
        rw [hmt, hctags]
        simp [Conn.metric, emitLine_closed h]
    | gauge r bucket v mtags =>
      simp only [runOp, Client.Gauge]
      by_cases hs : c.skip r = true
      · rw [if_pos hs]
      · rw [if_neg hs]
        have heven' : mtags.length % 2 = 0 := by
          simpa [opTagsEven] using heven
        obtain ⟨mt, hmt⟩ := Option.isSome_iff_exists.mp (newTags_isSome_of_even heven')
        rw [hmt, hctags]
        simp [Conn.gauge, emitLine_closed h]
    | timing r bucket v =>
      simp only [runOp, Client.Timing]
      by_cases hs : c.skip r = true
      · rw [if_pos hs]
      · rw [if_neg hs, hctags]
        simp [Conn.metric, emitLine_closed h]
    | histogram r bucket v mtags =>
      simp only [runOp, Client.Histogram]
      by_cases hs : c.skip r = true
      · rw [if_pos hs]
      · rw [if_neg hs]
        have heven' : mtags.length % 2 = 0 := by
          simpa [opTagsEven] using heven
        obtain ⟨mt, hmt⟩ := Option.isSome_iff_exists.mp (newTags_isSome_of_even heven')
        rw [hmt, hctags]
        simp [Conn.metric, emitLine_closed h]
    | uniq r bucket v =>
      simp only [runOp, Client.Unique]
      by_cases hs : c.skip r = true
      · rw [if_pos hs]
      · rw [if_neg hs, hctags]
        simp [Conn.unique, emitLine_closed h]
    | flush =>
      simp only [runOp, Client.Flush]
      rw [if_neg hm, flushOp_closed h]
    | close =>
      simp only [runOp, Client.Close]
      rw [if_neg hm, flushOp_closed h]
      simp [hconn cn h]

theorem runOps_closed {cn : Conn} (h : cn.closed = true) (ops : List (Client × OpCall))
    (hwf : ∀ p ∈ ops, wfPair p = true) : runOps cn ops = some (cn, []) := by
  induction ops with
  | nil => rfl
  | cons p ops ih =>
    obtain ⟨c, op⟩ := p
    simp only [runOps, runOp_closed h op (hwf (c, op) (List.mem_cons_self _ _)),
      ih fun q hq => hwf q (List.mem_cons_of_mem _ hq), List.nil_append]

theorem applyOpt_muted {conf c' : config} {o : Opt} (h : applyOpt conf o = some c') :
    c'.client.muted = muteStep conf.client.muted o := by
  cases o with
  | commonTags tags =>
    simp only [applyOpt] at h
    split at h
    · injection h with h
      subst h
      rfl
    · split at h
      · cases h
      · injection h with h
        subst h
        rfl
  | address a => injection h with h; subst h; rfl
  | flushPeriod p => injection h with h; subst h; rfl
  | maxPacketSize n => injection h with h; subst h; rfl
  | network s => injection h with h; subst h; rfl
  | mute b => injection h with h; subst h; rfl
  | sampleRate r => injection h with h; subst h; rfl
  | pfx p => injection h with h; subst h; rfl
  | tagsFormat tf => injection h with h; subst h; rfl

theorem applyOpt_tags_isSome {conf : config} {o : Opt} (hs : conf.client.tags.isSome = true) :
    ∃ c', applyOpt conf o = some c' ∧ c'.client.tags.isSome = true := by
  cases o with
  | commonTags tags =>
    by_cases hz : tags.length = 0
    · exact ⟨conf, by simp [applyOpt, hz], hs⟩
    · obtain ⟨t, ht⟩ := Option.isSome_iff_exists.mp hs
      refine ⟨{ conf with client := { conf.client with
          tags := some (t.append ((newTags tags).getD emptyTags)) } }, ?_, by simp⟩
      simp only [applyOpt, hz, if_false, ht]
  | address a => exact ⟨_, rfl, hs⟩
  | flushPeriod p => exact ⟨_, rfl, hs⟩
  | maxPacketSize n => exact ⟨_, rfl, hs⟩
  | network s => exact ⟨_, rfl, hs⟩
  | mute b => exact ⟨_, rfl, hs⟩
  | sampleRate r => exact ⟨_, rfl, hs⟩
  | pfx p => exact ⟨_, rfl, hs⟩
  | tagsFormat tf => exact ⟨_, rfl, hs⟩

theorem applyOpts_total_of_tags : ∀ (opts : List Opt) (conf : config),
    conf.client.tags.isSome = true →
    ∃ conf', applyOpts conf opts = some conf' ∧ conf'.client.tags.isSome = true := by
  intro opts
  induction opts with
  | nil => intro conf hs; exact ⟨conf, rfl, hs⟩
  | cons o os ih =>
    intro conf hs
    obtain ⟨c', hc', hs'⟩ := applyOpt_tags_isSome (o := o) hs
    obtain ⟨conf', hconf', hs''⟩ := ih c' hs'
    refine ⟨conf', ?_, hs''⟩
    simp only [applyOpts, hc', hconf']

theorem applyOpts_muted : ∀ (opts : List Opt) (conf conf' : config),
    applyOpts conf opts = some conf' →
    conf'.client.muted = opts.foldl muteStep conf.client.muted := by
  intro opts
  induction opts with
  | nil =>
    intro conf conf' h
    injection h with h
    subst h
    rfl
  | cons o os ih =>
    intro conf conf' h
    simp only [applyOpts] at h
    cases ho : applyOpt conf o with
    | none => rw [ho] at h; cases h
    | some c' =>
      rw [ho] at h
      rw [List.foldl_cons, ← applyOpt_muted ho]
      exact ih c' conf' h

theorem applyOpt_tags_of_noCommon {conf c' : config} {o : Opt}
    (hnc : notCommon o = true)
    (h : applyOpt conf o = some c') : c'.client.tags = conf.client.tags := by
  cases o with
  | commonTags tags => cases hnc
  | address a => injection h with h; subst h; rfl
  | flushPeriod p => injection h with h; subst h; rfl
  | maxPacketSize n => injection h with h; subst h; rfl
  | network s => injection h with h; subst h; rfl
  | mute b => injection h with h; subst h; rfl
  | sampleRate r => injection h with h; subst h; rfl
  | pfx p => injection h with h; subst h; rfl
  | tagsFormat tf => injection h with h; subst h; rfl

theorem applyOpts_tags_of_noCommon : ∀ (opts : List Opt) (conf conf' : config),
    noCommon opts = true → applyOpts conf opts = some conf' →
    conf'.client.tags = conf.client.tags := by
  intro opts
  induction opts with
  | nil =>
    intro conf conf' _ h
    injection h with h
    subst h
    rfl
  | cons o os ih =>
    intro conf conf' hnc h
    have hnc' := hnc
    simp only [noCommon, List.all_cons, Bool.and_eq_true] at hnc'
    obtain ⟨hnc1, hnc2⟩ := hnc'
    simp only [applyOpts] at h
    cases ho : applyOpt conf o with
    | none => rw [ho] at h; cases h
    | some c' =>
      rw [ho] at h
      rw [ih c' conf' hnc2 h, applyOpt_tags_of_noCommon hnc1 ho]

theorem clone_parent_tags (c : Client) (tf : TagFormat) (opts : List Opt)
    (clone : Client) (pt : Tags) (h : c.Clone (some tf) opts = some (clone, pt))
    (hnc : noCommon opts = true) : some pt = c.tags := by
  simp only [Client.Clone] at h
  cases happ : applyOpts
      { conn := zeroConnConfig,
        client := { muted := false, rate := c.rate, pfx := c.pfx, tags := c.tags } } opts with
  | none => exact Option.noConfusion (happ ▸ h)
  | some conf =>
    simp only [happ] at h
    cases htags : conf.client.tags with
    | none => exact Option.noConfusion (htags ▸ h)
    | some t =>
      simp only [htags, Option.some.injEq, Prod.mk.injEq] at h
      obtain ⟨-, hpt⟩ := h
      rw [← hpt, ← htags]
      exact applyOpts_tags_of_noCommon opts _ conf hnc happ

/-- C6: a muted client — muted at construction or by inheritance — never
causes a network write under any sequence of operations, and its `Flush` and
`Close` return immediately as no-ops. -/
theorem muted_client_never_writes (c : Client) (cn : Conn) (ops : List OpCall)
    (h : c.muted = true) :
    runOps cn (ops.map fun op => (c, op)) = some (cn, [])
    ∧ c.Flush cn = (cn, []) ∧ c.Close cn = (cn, []) :=
  ⟨runOps_muted h cn ops, by simp [Client.Flush, h], by simp [Client.Close, h]⟩

/-- Witness for C6 on a concrete muted client and operation list. -/
theorem muted_client_never_writes_witness :
    runOps ⟨false, [], 1440⟩
        ([OpCall.count 1 "b" "1" [], OpCall.flush, OpCall.close].map
          fun op => ((⟨true, 1, "", some emptyTags, 0⟩ : Client), op))
      = some (⟨false, [], 1440⟩, [])
    ∧ Client.Flush ⟨true, 1, "", some emptyTags, 0⟩ ⟨false, [], 1440⟩ = (⟨false, [], 1440⟩, [])
    ∧ Client.Close ⟨true, 1, "", some emptyTags, 0⟩ ⟨false, [], 1440⟩ = (⟨false, [], 1440⟩, []) :=
  muted_client_never_writes _ _ _ rfl

/-- C7: `Close` leaves the shared transport closed, and on a closed transport
every well-formed operation by any client sharing it is a safe no-op — no
panic, no error to the caller, no packet written, transport unchanged. -/
theorem closed_conn_all_noop (c : Client) (cn0 cn : Conn) (ops : List (Client × OpCall))
    (hm : c.muted = false) (hcl : cn.closed = true)
    (hwf : ∀ p ∈ ops, wfPair p = true) :
    (c.Close cn0).1.closed = true ∧ runOps cn ops = some (cn, []) := by
  constructor
  · have : ¬ c.muted = true := by simp [hm]
    simp [Client.Close, this]
  · exact runOps_closed hcl ops hwf

/-- Witness for C7: closing an open transport marks it closed, and a count,
flush and repeated close on the closed transport are no-ops. -/
theorem closed_conn_all_noop_witness :
    (Client.Close ⟨false, 1, "", some emptyTags, 0⟩ ⟨false, ["x:1|c"], 1440⟩).1.closed = true
    ∧ runOps ⟨true, [], 1440⟩
        [((⟨false, 1, "", some emptyTags, 0⟩ : Client), OpCall.count 1 "b" "1" []),
         ((⟨false, 1, "", some emptyTags, 0⟩ : Client), OpCall.flush),
         ((⟨false, 1, "", some emptyTags, 0⟩ : Client), OpCall.close)]
      = some (⟨true, [], 1440⟩, []) :=
  closed_conn_all_noop ⟨false, 1, "", some emptyTags, 0⟩ ⟨false, ["x:1|c"], 1440⟩
    ⟨true, [], 1440⟩ _ rfl rfl (by decide)

/-- C4: when the endpoint cannot be opened, `New` still returns a client
together with the construction error; that client is muted and every
operation on it is a safe no-op — construction failure never panics and
never prevents obtaining a usable client object. -/
theorem construction_failure_muted_client (opts : List Opt) :
    ∃ c : Client, New opts false = some (c, none, true) ∧ c.muted = true
      ∧ ∀ (cn : Conn) (ops : List OpCall),
          runOps cn (ops.map fun op => (c, op)) = some (cn, []) := by
  obtain ⟨conf, hconf, _⟩ := applyOpts_total_of_tags opts defaultConfig rfl
  refine ⟨⟨true, 0, "", none, 0⟩, ?_, rfl, fun cn ops => runOps_muted rfl cn ops⟩
  simp [New, hconf]

/-- C5: a clone's muted flag is the disjunction of the parent's muted flag
and the option list's `Mute` value, so cloning can only widen the mute
state; every clone of a muted client is muted, and mutedness short-circuits
every operation before it reaches the transport. -/
theorem clone_muted_widening (c : Client) (connTF : Option TagFormat) (opts : List Opt)
    (clone : Client) (pt : Tags) (h : c.Clone connTF opts = some (clone, pt)) :
    clone.muted = (c.muted || mutedOfOpts opts)
    ∧ (c.muted = true → clone.muted = true)
    ∧ (clone.muted = true → ∀ (cn : Conn) (ops : List OpCall),
        runOps cn (ops.map fun op => (clone, op)) = some (cn, [])) := by
  cases connTF with
  | none => simp [Client.Clone] at h
  | some tf =>
    simp only [Client.Clone] at h
    cases happ : applyOpts
        { conn := zeroConnConfig,
          client := { muted := false, rate := c.rate, pfx := c.pfx, tags := c.tags } } opts with
    | none => exact Option.noConfusion (happ ▸ h)
    | some conf =>
      simp only [happ] at h
      cases htags : conf.client.tags with
      | none => exact Option.noConfusion (htags ▸ h)
      | some t =>
        simp only [htags, Option.some.injEq, Prod.mk.injEq] at h
        obtain ⟨hcl, -⟩ := h
        have hclone : clone.muted = (c.muted || conf.client.muted) := by
          rw [← hcl]
        have hm : conf.client.muted = mutedOfOpts opts := applyOpts_muted opts _ conf happ
        refine ⟨by rw [hclone, hm], ?_, ?_⟩
        · intro hmut
          rw [hclone, hmut, Bool.true_or]
        · intro hmut cn ops
          exact runOps_muted hmut cn ops

/-- Witness for C5: cloning a muted client with no options yields a muted
clone whose operations are no-ops. -/
theorem clone_muted_widening_witness :
    (⟨true, 1, "", some (Tags.clone emptyTags), 0⟩ : Client).muted
        = (true || mutedOfOpts [])
    ∧ runOps ⟨false, [], 1440⟩
        ([OpCall.flush].map fun op =>
          ((⟨true, 1, "", some (Tags.clone emptyTags), 0⟩ : Client), op))
      = some (⟨false, [], 1440⟩, []) :=
  ⟨(clone_muted_widening ⟨true, 1, "", some emptyTags, 0⟩ (some 0) []
      ⟨true, 1, "", some (Tags.clone emptyTags), 0⟩ emptyTags (by decide)).1,
   (clone_muted_widening ⟨true, 1, "", some emptyTags, 0⟩ (some 0) []
      ⟨true, 1, "", some (Tags.clone emptyTags), 0⟩ emptyTags (by decide)).2.2 rfl
     ⟨false, [], 1440⟩ [OpCall.flush]⟩

/-- C9 counterexample: cloning with `Prefix("a..")` from an empty parent
prefix yields the prefix `"a.."` — which ends in two dots, not exactly one,
so the appended segment is not `p` "normalized to end with exactly one
trailing dot". -/
theorem clone_prefix_counterexample :
    Client.Clone ⟨false, 1, "", some emptyTags, 0⟩ (some 0) [Opt.pfx "a.."]
      = some (⟨false, 1, "a..", some (Tags.clone emptyTags), 0⟩, emptyTags)
    ∧ ¬ (endsWith "a.." "." = true ∧ endsWith "a.." ".." = false) :=
  ⟨by decide, by decide⟩

/-- C9 (amended): a clone made with a `Prefix(p)` option has prefix equal to
the parent's prefix followed by `p` with one trailing dot trimmed (when
present) and a single dot appended; with no `Prefix` option the clone keeps
the parent's prefix unchanged. -/
theorem clone_prefix_concat (c : Client) (tf : TagFormat) (p : String)
    (clone clone0 : Client) (pt pt0 : Tags)
    (h1 : c.Clone (some tf) [Opt.pfx p] = some (clone, pt))
    (h0 : c.Clone (some tf) [] = some (clone0, pt0)) :
    clone.pfx = c.pfx ++ (trimSuffix p "." ++ ".") ∧ clone0.pfx = c.pfx := by
  cases htag : c.tags with
  | none =>
    simp only [Client.Clone, applyOpts, applyOpt, htag] at h1
    exact Option.noConfusion h1
  | some t =>
    simp only [Client.Clone, applyOpts, applyOpt, htag, Option.some.injEq,
      Prod.mk.injEq] at h1 h0
    constructor
    · rw [← h1.1]
      exact String.append_assoc _ _ _
    · rw [← h0.1]


/-- Witness for C9 (amended) at parent prefix `"app."` and `Prefix("x")`. -/
theorem clone_prefix_concat_witness :
    ("app.x." : String) = "app." ++ (trimSuffix "x" "." ++ ".") ∧ ("app." : String) = "app." := by
  have h := clone_prefix_concat ⟨false, 1, "app.", some emptyTags, 0⟩ 0 "x"
    ⟨false, 1, "app.x.", some (Tags.clone emptyTags), 0⟩
    ⟨false, 1, "app.", some (Tags.clone emptyTags), 0⟩
    emptyTags emptyTags (by decide) (by decide)
  exact h

/-- C10 counterexample: cloning with a `CommonTags` option mutates the
parent's tag set — the config's tags field aliases the parent's `*Tags`, and
the option's `append` writes through it, so after
`Clone(CommonTags("b","2"))` the parent of a `{a:1}` client holds
`{a:1, b:2}`. -/
theorem clone_commonTags_mutates_parent :
    Client.Clone ⟨false, 1, "", some ⟨[("a", "1")], ["a"]⟩, 0⟩ (some 0)
        [Opt.commonTags ["b", "2"]]
      = some (⟨false, 1, "", some ⟨[("a", "1"), ("b", "2")], ["a", "b"]⟩, 0⟩,
          ⟨[("a", "1"), ("b", "2")], ["a", "b"]⟩)
    ∧ (⟨[("a", "1"), ("b", "2")], ["a", "b"]⟩ : Tags) ≠ ⟨[("a", "1")], ["a"]⟩ :=
  ⟨by decide, by decide⟩

/-- C10 (amended): cloning copies the facade's policy fields and leaves the
parent's tag set unchanged whenever the option list contains no `CommonTags`
option; a `CommonTags` option, however, appends its new keys to the parent's
tag set in place, because the clone's configuration aliases the parent's
tags. -/
theorem clone_parent_tags_frame (c : Client) (tf : TagFormat) (t : Tags) (h : c.tags = some t) :
    (∀ opts clone pt, noCommon opts = true →
        c.Clone (some tf) opts = some (clone, pt) → pt = t)
    ∧ (∀ ts clone pt, ts ≠ [] →
        c.Clone (some tf) [Opt.commonTags ts] = some (clone, pt) →
        pt = t.append ((newTags ts).getD emptyTags)) := by
  constructor
  · intro opts clone pt hnc hcl
    have hsome := clone_parent_tags c tf opts clone pt hcl hnc
    rw [h, Option.some.injEq] at hsome
    exact hsome
  · intro ts clone pt hts hcl
    have hlen : ¬ ts.length = 0 := by
      intro h0
      exact hts (List.length_eq_zero.mp h0)
    simp only [Client.Clone, applyOpts, applyOpt, h, if_neg hlen, Option.some.injEq,
      Prod.mk.injEq] at hcl
    exact hcl.2.symm

/-- Witness for C10 (amended): a mute-only clone leaves the parent's tags
`{a:1}` untouched, while `CommonTags("b","2")` turns them into `{a:1, b:2}`. -/
theorem clone_parent_tags_frame_witness :
    (⟨[("a", "1")], ["a"]⟩ : Tags) = ⟨[("a", "1")], ["a"]⟩
    ∧ (⟨[("a", "1"), ("b", "2")], ["a", "b"]⟩ : Tags)
        = Tags.append ⟨[("a", "1")], ["a"]⟩ ((newTags ["b", "2"]).getD emptyTags) := by
  have h := clone_parent_tags_frame ⟨false, 1, "", some ⟨[("a", "1")], ["a"]⟩, 0⟩ 0
    ⟨[("a", "1")], ["a"]⟩ rfl
  refine ⟨h.1 [Opt.mute true]
      ⟨true, 1, "", some (Tags.clone ⟨[("a", "1")], ["a"]⟩), 0⟩
      ⟨[("a", "1")], ["a"]⟩ (by decide) (by decide),
    h.2 ["b", "2"]
      ⟨false, 1, "", some (Tags.clone ⟨[("a", "1"), ("b", "2")], ["a", "b"]⟩), 0⟩
      ⟨[("a", "1"), ("b", "2")], ["a", "b"]⟩ (by decide) (by decide)⟩

end Statsd
